import Mathlib

/-!
# IPChecker: the upload state machine of `src/components/IPchecker.jsx`

The React component keeps seven `useState` cells and mutates them from four
handlers: `onDrop`, `handleFileUpload`, `resetForm` and the theme toggle.
`handleFileUpload` is an `async` function; it is embedded as its synchronous
prefix (up to the `await`), the `onUploadProgress` callback, and the two
continuations after the `await` (the `try` tail and the `catch` block).
Everything outside the component that the handlers touch is kept in `World`:
the requests handed to `axios.post`, the number of requests still awaiting
completion, and the object URLs made by `window.URL.createObjectURL`.
-/

namespace IPChecker

/-! ## Data model -/

/-- A browser `File`: a name and a byte length. -/
structure File where
  name : String
  size : Nat
deriving DecidableEq, Repr

/-- Values the `file` cell can hold: `null` (initial value, `resetForm`),
`undefined` (`acceptedFiles[0]` of an empty array) or a `File` object. -/
inductive FileSlot where
  | null
  | undefined
  | file (f : File)
deriving DecidableEq, Repr

/-- JavaScript truthiness of the `file` cell: only a `File` object is truthy. -/
def FileSlot.truthy : FileSlot → Bool
  | .file _ => true
  | _ => false

/-- The numbers the `progress` cell can hold: an integer (the literal `0`
or a `Math.round` result), `Infinity` or `NaN`. -/
inductive JsNum where
  | int (n : Int)
  | infinity
  | nan
deriving DecidableEq, Repr

/-- The body of the response (`response.data`), as bytes. -/
abbrev Payload := List Nat

/-- An object URL, identified by its creation index. -/
abbrev Url := Nat

/-- The seven `useState` cells of the component (source lines 6-12). -/
structure State where
  file : FileSlot
  loading : Bool
  downloadLink : Option Url
  progress : JsNum
  fileUploaded : Bool
  darkMode : Bool
  error : Option String
deriving DecidableEq, Repr

/-- The initial values passed to `useState`. -/
def State.initial : State :=
  { file := .null, loading := false, downloadLink := none, progress := .int 0,
    fileUploaded := false, darkMode := false, error := none }

/-- Component state together with the environment the handlers act on.
`posted` logs the files given to `axios.post`, oldest first; `inFlight` counts
the requests that have neither resolved nor rejected; `blobs` holds the payload
behind each object URL created so far (URL `i` is entry `i`); `live` lists the
object URLs that have been created and not revoked. -/
structure World where
  st : State
  posted : List File
  inFlight : Nat
  blobs : List Payload
  live : List Url
deriving DecidableEq, Repr

/-- The world when the component is first mounted. -/
def World.initial : World :=
  { st := State.initial, posted := [], inFlight := 0, blobs := [], live := [] }

/-- The `progressEvent` argument of `onUploadProgress`: the bytes sent so far
and the bytes to send. -/
structure ProgressEvent where
  loaded : Nat
  total : Nat
deriving DecidableEq, Repr

/-! ## Handlers -/

/-- The fixed message set in the `catch` block (source line 55). -/
def errorMessage : String :=
  "An error occurred while verifying IPs. Please try again."

/-- Handler `onDrop` (source lines 24-30). `acceptedFiles[0]` is `undefined` when the
array is empty. -/
def onDrop (s : State) (acceptedFiles : List File) : State :=
  { s with
    file := match acceptedFiles with
      | [] => .undefined
      | f :: _ => .file f
    downloadLink := none
    fileUploaded := true
    progress := .int 0
    error := none }

/-- JavaScript `Math.round` on a finite number: the integer nearest to `x`,
a half going up, which is the floor of `x + 0.5` taken exactly. -/
def mathRound (x : ℚ) : Int := ⌊x + 1 / 2⌋

/-- Rounding to the nearest integer with ties going to the even one, the
rounding rule of IEEE-754 arithmetic. -/
def roundNearestEven (y : ℚ) : Int :=
  if y - (⌊y⌋ : ℚ) < 1 / 2 then ⌊y⌋
  else if 1 / 2 < y - (⌊y⌋ : ℚ) then ⌊y⌋ + 1
  else if ⌊y⌋ % 2 = 0 then ⌊y⌋ else ⌊y⌋ + 1

/-- The binary64 number (a JavaScript Number) that an arithmetic operation
returns for the exact non-negative result `q`: `q` rounded to 53 significant
bits, ties to even, with exponents below -1022 sharing the subnormal spacing;
`none` stands for `Infinity`, returned when the rounded value reaches
`2 ^ 1024`. -/
def toDouble (q : ℚ) : Option ℚ :=
  if q = 0 then some 0
  else
    let e : Int := max (Int.log 2 q) (-1022)
    let x : ℚ := (roundNearestEven (q / (2 : ℚ) ^ (e - 52)) : ℚ) * (2 : ℚ) ^ (e - 52)
    if x < (2 : ℚ) ^ (1024 : Int) then some x else none

/-- The value `Math.round((progressEvent.loaded * 100) / progressEvent.total)`
(source line 46), in double arithmetic: the product is rounded to a double,
then the quotient is. `loaded` and `total` are byte counts, which are doubles
with an integer value. An infinite product stays `Infinity` through the
division; a zero `total` gives `NaN` for `0 / 0` and `Infinity` otherwise;
`Math.round` returns `Infinity` and `NaN` unchanged. -/
def percentCompleted (ev : ProgressEvent) : JsNum :=
  match toDouble ((ev.loaded : ℚ) * 100) with
  | none => .infinity
  | some p =>
    if ev.total = 0 then
      if p = 0 then .nan else .infinity
    else
      match toDouble (p / (ev.total : ℚ)) with
      | none => .infinity
      | some x => .int (mathRound x)

/-- The `onUploadProgress` callback (source lines 45-48). -/
def onUploadProgress (w : World) (ev : ProgressEvent) : World :=
  { w with st := { w.st with progress := percentCompleted ev } }

/-- Handler `handleFileUpload` up to the `await` (source lines 35-49): returns at once
when `file` is falsy, otherwise sets `loading` and `progress` and posts the
file. -/
def handleFileUpload (w : World) : World :=
  match w.st.file with
  | .file f =>
    { w with
      st := { w.st with loading := true, progress := .int 0 }
      posted := w.posted ++ [f]
      inFlight := w.inFlight + 1 }
  | _ => w

/-- The call `window.URL.createObjectURL(new Blob([data]))`: a fresh URL backed by the
payload, which is live from creation. -/
def createObjectURL (w : World) (data : Payload) : Url × World :=
  (w.blobs.length,
   { w with blobs := w.blobs ++ [data], live := w.live ++ [w.blobs.length] })

/-- The `try` tail of `handleFileUpload` after the request resolves (source
lines 51-53). -/
def uploadResolved (w : World) (data : Payload) : World :=
  let (url, w1) := createObjectURL w data
  { w1 with
    st := { w1.st with downloadLink := some url, loading := false }
    inFlight := w1.inFlight - 1 }

/-- The `catch` block of `handleFileUpload` (source lines 54-57). -/
def uploadRejected (w : World) : World :=
  { w with
    st := { w.st with error := some errorMessage, loading := false }
    inFlight := w.inFlight - 1 }

/-- Handler `resetForm` (source lines 60-67). -/
def resetForm (s : State) : State :=
  { s with
    file := .null
    loading := false
    downloadLink := none
    progress := .int 0
    fileUploaded := false
    error := none }

/-- The `disabled` attribute of the Verify button (source line 114):
`!file || loading`. -/
def verifyDisabled (s : State) : Bool := !s.file.truthy || s.loading

/-- A click on the Verify button (source lines 112-114): a disabled button
does not run its `onClick` handler. -/
def clickVerify (w : World) : World :=
  if verifyDisabled w.st then w else handleFileUpload w

/-- The theme toggle's `onClick` (source line 75). -/
def toggleDarkMode (s : State) : State :=
  { s with darkMode := !s.darkMode }

/-! ## Runs of the component -/

/-- What can happen to a mounted component: user actions and the callbacks
axios makes for a request in flight. -/
inductive Event where
  | drop (acceptedFiles : List File)
  | verify
  | uploadProgress (ev : ProgressEvent)
  | resolved (data : Payload)
  | rejected
  | reset
  | toggleTheme
deriving DecidableEq, Repr

/-- One event. The callbacks of a request only fire while a request is in
flight. -/
def step (w : World) : Event → World
  | .drop fs => { w with st := onDrop w.st fs }
  | .verify => clickVerify w
  | .uploadProgress ev => if w.inFlight = 0 then w else onUploadProgress w ev
  | .resolved data => if w.inFlight = 0 then w else uploadResolved w data
  | .rejected => if w.inFlight = 0 then w else uploadRejected w
  | .reset => { w with st := resetForm w.st }
  | .toggleTheme => { w with st := toggleDarkMode w.st }

/-- A sequence of events, left to right. -/
def run (w : World) (evs : List Event) : World := evs.foldl step w

/-- The worlds a mounted component can be in. -/
def Reachable (w : World) : Prop := ∃ evs, run World.initial evs = w

/-- The `progress` values published by a sequence of progress callbacks: the
cell's value after each callback, in order. -/
def publishedProgress (w : World) : List ProgressEvent → List JsNum
  | [] => []
  | ev :: evs => (onUploadProgress w ev).st.progress :: publishedProgress (onUploadProgress w ev) evs

/-- Rounding as the specification words it: the nearest integer, a half
rounded up. A fractional part below one half goes down, otherwise up. -/
def nearestHalfUp (q : ℚ) : Int :=
  if q - (⌊q⌋ : ℚ) < 1 / 2 then ⌊q⌋ else ⌊q⌋ + 1

/-! ## Sample data and invariants -/

/-- A sample spreadsheet used in the concrete runs below. -/
def sampleFile : File := { name := "ips.xlsx", size := 10000 }

/-- A sample response body used in the concrete runs below. -/
def sampleData : Payload := [80, 75, 3, 4]

/-- A spreadsheet of 64 TiB, whose multipart body of 70368744177673 bytes is
just above `2 ^ 46`. -/
def hugeFile : File := { name := "ips.xlsx", size := 70368744177473 }

/-- The `progress` cell after a sequence of progress callbacks: the percentage
of the last one, or the value before when there is none. -/
def lastPublished (before : JsNum) (evs : List ProgressEvent) : JsNum :=
  evs.foldl (fun _ ev => percentCompleted ev) before

/-- The world after dropping `sampleFile` and clicking Verify: one request in
flight. -/
def worldUploading : World :=
  run World.initial [.drop [sampleFile], .verify]

/-- Invariant of the runs: every object URL created so far is live, and the
download link, when set, is one of the URLs created. -/
def AllCreatedLive (w : World) : Prop :=
  w.live = List.range w.blobs.length ∧
  ∀ u, w.st.downloadLink = some u → u < w.blobs.length

/-! ## Helper lemmas -/

/-- Flooring `q + 1/2` rounds `q` to the nearest integer, halves up. -/
theorem mathRound_eq_nearestHalfUp (q : ℚ) : mathRound q = nearestHalfUp q := by
  unfold mathRound nearestHalfUp
  have h0 : (⌊q⌋ : ℚ) ≤ q := Int.floor_le q
  have h1 : q < (⌊q⌋ : ℚ) + 1 := Int.lt_floor_add_one q
  split_ifs with h
  · rw [Int.floor_eq_iff]
    constructor <;> linarith
  · rw [Int.floor_eq_iff]
    push_cast
    constructor <;> linarith

/-- An integer rounds to itself. -/
theorem roundNearestEven_int (m : Int) : roundNearestEven (m : ℚ) = m := by
  simp [roundNearestEven]

/-- Rounding never goes below an integer that the argument is not below. -/
theorem le_roundNearestEven (y : ℚ) (m : Int) (h : (m : ℚ) ≤ y) : m ≤ roundNearestEven y := by
  have hf : m ≤ ⌊y⌋ := Int.le_floor.mpr h
  unfold roundNearestEven
  split_ifs <;> omega

/-- Rounding moves the argument up by at most one half. -/
theorem roundNearestEven_le (y : ℚ) : (roundNearestEven y : ℚ) ≤ y + 1 / 2 := by
  have h0 : (⌊y⌋ : ℚ) ≤ y := Int.floor_le y
  unfold roundNearestEven
  split_ifs with h1 h2 h3
  · linarith
  · push_cast; linarith
  · linarith
  · push_cast; linarith

/-- The binary exponent of a number between two consecutive powers of two. -/
theorem log_eq_of_bounds (q : ℚ) (e : Int) (h1 : (2 : ℚ) ^ e ≤ q) (h2 : q < (2 : ℚ) ^ (e + 1)) :
    Int.log 2 q = e := by
  have hq : 0 < q := lt_of_lt_of_le (by positivity) h1
  have a : e ≤ Int.log 2 q := (Int.zpow_le_iff_le_log (by norm_num) hq).mp (by exact_mod_cast h1)
  have b : Int.log 2 q < e + 1 := (Int.lt_zpow_iff_log_lt (by norm_num) hq).mp (by exact_mod_cast h2)
  omega


/-- Integers below `2 ^ 53` are doubles: rounding leaves them as they are. -/
theorem toDouble_natCast (n : Nat) (hn : n < 2 ^ 53) : toDouble (n : ℚ) = some (n : ℚ) := by
  rcases Nat.eq_zero_or_pos n with h0 | hpos
  · subst h0; simp [toDouble]
  · have hne : (n : ℚ) ≠ 0 := by exact_mod_cast (Nat.pos_iff_ne_zero.mp hpos)
    have hlog : Int.log 2 (n : ℚ) = (Nat.log 2 n : Int) := Int.log_natCast 2 n
    have hlt : Nat.log 2 n < 53 := Nat.log_lt_of_lt_pow (Nat.pos_iff_ne_zero.mp hpos) hn
    obtain ⟨j, hj⟩ : ∃ j : Nat, (Nat.log 2 n : Int) - 52 = -(j : Int) :=
      ⟨52 - Nat.log 2 n, by omega⟩
    have hmax : max (Int.log 2 (n : ℚ)) (-1022) - 52 = -(j : Int) := by
      rw [hlog]; omega
    have hpow : (2 : ℚ) ^ (-(j : Int)) = ((2 : ℚ) ^ j)⁻¹ := by
      rw [zpow_neg, zpow_natCast]
    have h2 : (0 : ℚ) < (2 : ℚ) ^ j := by positivity
    have hy : (n : ℚ) / ((2 : ℚ) ^ j)⁻¹ = (((n * 2 ^ j : Nat) : Int) : ℚ) := by
      push_cast; field_simp
    unfold toDouble
    rw [if_neg hne]
    simp only [hmax, hpow, hy, roundNearestEven_int]
    have hx : ((((n * 2 ^ j : Nat) : Int) : ℚ)) * ((2 : ℚ) ^ j)⁻¹ = (n : ℚ) := by
      push_cast; field_simp
    rw [hx, if_pos]
    calc (n : ℚ) < ((2 ^ 53 : Nat) : ℚ) := by exact_mod_cast hn
      _ < (2 : ℚ) ^ (1024 : Int) := by norm_num

/-- A quotient below 128 that stays more than `2 ^ -47` under the next half
rounds, as a double, to a number with the same `Math.round`. -/
theorem toDouble_mathRound (q : ℚ) (k : Int) (hq0 : 0 < q) (hq : q < 128)
    (hlo : (k : ℚ) - 1 / 2 ≤ q) (hhi : q + 1 / 2 ^ 47 < (k : ℚ) + 1 / 2) :
    ∃ x, toDouble q = some x ∧ mathRound x = k := by
  have hlog : Int.log 2 q < 7 :=
    (Int.lt_zpow_iff_log_lt (by norm_num) hq0).mp (by norm_num; linarith)
  obtain ⟨j, hj⟩ : ∃ j : Nat, max (Int.log 2 q) (-1022) - 52 = -((j + 46 : Nat) : Int) :=
    ⟨(6 - max (Int.log 2 q) (-1022)).toNat, by omega⟩
  have hpow : (2 : ℚ) ^ (-((j + 46 : Nat) : Int)) = ((2 : ℚ) ^ (j + 46))⁻¹ := by
    rw [zpow_neg, zpow_natCast]
  have h2 : (0 : ℚ) < (2 : ℚ) ^ (j + 46) := by positivity
  have hsplit : (2 : ℚ) ^ (j + 46) = 2 * ((2 ^ (j + 45) : Nat) : ℚ) := by
    push_cast; ring
  have hbig : (2 : ℚ) ^ 47 ≤ (2 : ℚ) ^ (j + 46) * 2 := by
    have : (1 : ℚ) ≤ (2 : ℚ) ^ j := one_le_pow₀ (by norm_num)
    calc (2 : ℚ) ^ 47 = 1 * 2 ^ 47 := by ring
      _ ≤ 2 ^ j * 2 ^ 47 := by gcongr
      _ = (2 : ℚ) ^ (j + 46) * 2 := by ring
  set P : ℚ := (2 : ℚ) ^ (j + 46) with hP
  set y : ℚ := q / P⁻¹ with hy
  have hyq : y = q * P := by rw [hy]; field_simp
  have hlo2 : (((2 * k - 1) * (2 ^ (j + 45) : Nat) : Int) : ℚ) ≤ y := by
    rw [hyq]; push_cast
    have : ((k : ℚ) - 1 / 2) * P ≤ q * P := by gcongr
    rw [hsplit] at this ⊢
    push_cast at this ⊢
    linarith
  have hR1 := le_roundNearestEven y _ hlo2
  have hhi2 : y + 1 / 2 < (((2 * k + 1) * (2 ^ (j + 45) : Nat) : Int) : ℚ) := by
    rw [hyq]; push_cast
    have h47 : (1 : ℚ) / 2 ≤ 1 / 2 ^ 47 * P := by
      rw [div_mul_eq_mul_div, one_mul, le_div_iff₀ (by positivity)]
      linarith
    have : (q + 1 / 2 ^ 47) * P < ((k : ℚ) + 1 / 2) * P := by gcongr
    rw [hsplit] at this h47 ⊢
    push_cast at this h47 ⊢
    linarith
  have hR2 : roundNearestEven y < (2 * k + 1) * (2 ^ (j + 45) : Nat) := by
    have := lt_of_le_of_lt (roundNearestEven_le y) hhi2
    exact_mod_cast this
  have hR3 : roundNearestEven y ≤ (2 * k + 1) * (2 ^ (j + 45) : Nat) - 1 := by omega
  have hxlo : (k : ℚ) - 1 / 2 ≤ (roundNearestEven y : ℚ) * P⁻¹ := by
    rw [le_mul_inv_iff₀ h2]
    have : (((2 * k - 1) * (2 ^ (j + 45) : Nat) : Int) : ℚ) ≤ (roundNearestEven y : ℚ) := by
      exact_mod_cast hR1
    rw [hsplit]; push_cast at this ⊢; linarith
  have hxhi : (roundNearestEven y : ℚ) * P⁻¹ < (k : ℚ) + 1 / 2 := by
    rw [mul_inv_lt_iff₀ h2]
    have : (roundNearestEven y : ℚ) ≤ (((2 * k + 1) * (2 ^ (j + 45) : Nat) - 1 : Int) : ℚ) := by
      exact_mod_cast hR3
    rw [hsplit]; push_cast at this ⊢; linarith
  refine ⟨(roundNearestEven y : ℚ) * P⁻¹, ?_, ?_⟩
  · unfold toDouble
    rw [if_neg (ne_of_gt hq0)]
    simp only [hj, hpow]
    rw [if_pos]
    have : (k : ℚ) + 1 / 2 < (2 : ℚ) ^ (1024 : Int) := by
      have : (k : ℚ) + 1 / 2 < 130 := by linarith
      refine lt_trans this ?_
      norm_num
    exact lt_trans hxhi this
  · unfold mathRound
    rw [Int.floor_eq_iff]
    constructor <;> linarith


/-- The integer within one half of the argument is its rounding. -/
theorem roundNearestEven_eq_of_near (y : ℚ) (m : Int) (h1 : (m : ℚ) - 1 / 2 < y)
    (h2 : y < (m : ℚ) + 1 / 2) : roundNearestEven y = m := by
  have hf0 : (⌊y⌋ : ℚ) ≤ y := Int.floor_le y
  have hf1 : y < (⌊y⌋ : ℚ) + 1 := Int.lt_floor_add_one y
  have ha : m - 1 ≤ ⌊y⌋ := by
    have : ((m - 1 : Int) : ℚ) < (⌊y⌋ : ℚ) + 1 := by push_cast; linarith
    have : (m - 1 : Int) < ⌊y⌋ + 1 := by exact_mod_cast this
    omega
  have hb : ⌊y⌋ ≤ m := by
    have : (⌊y⌋ : ℚ) < ((m + 1 : Int) : ℚ) := by push_cast; linarith
    have : ⌊y⌋ < m + 1 := by exact_mod_cast this
    omega
  rcases (by omega : ⌊y⌋ = m ∨ ⌊y⌋ = m - 1) with h | h
  · unfold roundNearestEven
    rw [h, if_pos (by linarith)]
  · unfold roundNearestEven
    rw [h]
    have hc : ¬ (y - ((m - 1 : Int) : ℚ) < 1 / 2) := by push_cast; linarith
    have hd : (1 : ℚ) / 2 < y - ((m - 1 : Int) : ℚ) := by push_cast; linarith
    rw [if_neg hc, if_pos hd]
    omega

/-- For totals below `2 ^ 46` and `loaded ≤ total` the double computation of
line 46 publishes the exact quotient rounded to the nearest integer, halves up. -/
theorem percentCompleted_exact (l t : Nat) (ht : 0 < t) (hb : t < 2 ^ 46) (hl : l ≤ t) :
    percentCompleted ⟨l, t⟩ = .int (nearestHalfUp (((l * 100 : Nat) : ℚ) / (t : ℚ))) := by
  have hprod : toDouble ((l : ℚ) * 100) = some (((l * 100 : Nat) : ℚ)) := by
    have := toDouble_natCast (l * 100) (by omega)
    rw [← this]; push_cast; rfl
  have ht0 : t ≠ 0 := Nat.pos_iff_ne_zero.mp ht
  have htq : (0 : ℚ) < (t : ℚ) := by exact_mod_cast ht
  unfold percentCompleted
  simp only [hprod, if_neg ht0]
  rw [← mathRound_eq_nearestHalfUp]
  rcases Nat.eq_zero_or_pos l with h0 | hpos
  · subst h0
    simp [toDouble]
  · set q : ℚ := ((l * 100 : Nat) : ℚ) / (t : ℚ) with hq
    have hlq : (0 : ℚ) < ((l * 100 : Nat) : ℚ) := by
      have : 0 < l * 100 := by omega
      exact_mod_cast this
    have hq0 : 0 < q := div_pos hlq htq
    have hq100 : q ≤ 100 := by
      rw [hq, div_le_iff₀ htq]
      have : l * 100 ≤ 100 * t := by omega
      exact_mod_cast this
    have hk0 : ((mathRound q : Int) : ℚ) ≤ q + 1 / 2 := Int.floor_le _
    have hk1 : q + 1 / 2 < ((mathRound q : Int) : ℚ) + 1 := Int.lt_floor_add_one _
    have hgap : q + 1 / (2 * (t : ℚ)) ≤ (mathRound q : ℚ) + 1 / 2 := by
      have h1 : (2 * ((l * 100 : Nat) : ℚ) + (t : ℚ)) < 2 * (t : ℚ) * ((mathRound q : ℚ) + 1) := by
        have := mul_lt_mul_of_pos_right hk1 (by linarith : (0 : ℚ) < 2 * (t : ℚ))
        have e1 : (q + 1 / 2) * (2 * (t : ℚ)) = 2 * ((l * 100 : Nat) : ℚ) + (t : ℚ) := by
          rw [hq]; field_simp; ring
        rw [e1] at this
        linarith
      have h2 : (2 * ((l * 100 : Nat) : Int) + (t : Int)) < 2 * (t : Int) * (mathRound q + 1) := by
        exact_mod_cast h1
      have h3 : (2 * ((l * 100 : Nat) : Int) + (t : Int)) + 1 ≤ 2 * (t : Int) * (mathRound q + 1) := by
        omega
      have h4 : (2 * ((l * 100 : Nat) : ℚ) + (t : ℚ)) + 1 ≤ 2 * (t : ℚ) * ((mathRound q : ℚ) + 1) := by
        exact_mod_cast h3
      have e2 : q + 1 / (2 * (t : ℚ)) = ((2 * ((l * 100 : Nat) : ℚ) + (t : ℚ)) + 1) / (2 * (t : ℚ)) - 1 / 2 := by
        rw [hq]; field_simp; ring
      rw [e2]
      have : ((2 * ((l * 100 : Nat) : ℚ) + (t : ℚ)) + 1) / (2 * (t : ℚ)) ≤ (mathRound q : ℚ) + 1 := by
        rw [div_le_iff₀ (by linarith)]
        linarith
      linarith
    have hsmall : (1 : ℚ) / 2 ^ 47 < 1 / (2 * (t : ℚ)) := by
      apply one_div_lt_one_div_of_lt (by linarith)
      have : 2 * t < 2 ^ 47 := by omega
      exact_mod_cast this
    obtain ⟨x, hx, hr⟩ := toDouble_mathRound q (mathRound q) hq0 (by linarith)
      (by linarith) (by linarith)
    rw [hx]
    simp only [hr]


/-- The double nearest to `q`, from the binary exponent of `q` and the integer
nearest to its scaled significand. -/
theorem toDouble_of_bounds (q : ℚ) (e m : Int) (h1 : (2 : ℚ) ^ e ≤ q) (h2 : q < (2 : ℚ) ^ (e + 1))
    (he : -1022 ≤ e) (hlo : (m : ℚ) - 1 / 2 < q / (2 : ℚ) ^ (e - 52))
    (hhi : q / (2 : ℚ) ^ (e - 52) < (m : ℚ) + 1 / 2)
    (hfin : (m : ℚ) * (2 : ℚ) ^ (e - 52) < (2 : ℚ) ^ (1024 : Int)) :
    toDouble q = some ((m : ℚ) * (2 : ℚ) ^ (e - 52)) := by
  have hq : 0 < q := lt_of_lt_of_le (by positivity) h1
  have hlog := log_eq_of_bounds q e h1 h2
  unfold toDouble
  rw [if_neg (ne_of_gt hq)]
  simp only [hlog, max_eq_left he, roundNearestEven_eq_of_near _ m hlo hhi, if_pos hfin]

/-- The published percentage, from the two roundings of line 46. -/
theorem percentCompleted_of_toDouble (l t : Nat) (p x : ℚ) (ht : t ≠ 0)
    (h1 : toDouble ((l : ℚ) * 100) = some p) (h2 : toDouble (p / (t : ℚ)) = some x) :
    percentCompleted ⟨l, t⟩ = .int (mathRound x) := by
  unfold percentCompleted
  simp only [h1, h2, if_neg ht]

/-- The double product of line 46 at `loaded = 48202589761706` is exact. -/
theorem toDouble_hugeProduct : toDouble (4820258976170600 : ℚ) = some 4820258976170600 := by
  have h := toDouble_natCast 4820258976170600 (by norm_num)
  rw [Nat.cast_ofNat] at h
  exact h

/-- The double quotient of line 46 at `loaded = 48202589761706`, `total =
70368744177673` is exactly 68.5, though the exact quotient is below it. -/
theorem toDouble_hugeQuotient :
    toDouble ((4820258976170600 : ℚ) / 70368744177673) = some (137 / 2) := by
  have := toDouble_of_bounds (4820258976170600 / 70368744177673) 6 4820258976169984
    (by norm_num) (by norm_num) (by norm_num) (by norm_num) (by norm_num) (by norm_num)
  rw [this]
  norm_num

/-- The code publishes 69 at `loaded = 48202589761706`, `total = 70368744177673`. -/
theorem percentCompleted_huge :
    percentCompleted ⟨48202589761706, 70368744177673⟩ = .int 69 := by
  have e1 : ((48202589761706 : ℕ) : ℚ) * 100 = 4820258976170600 := by norm_num
  have e2 : ((70368744177673 : ℕ) : ℚ) = 70368744177673 := by norm_num
  have e3 : (70368744177673 : ℕ) ≠ 0 := by norm_num
  have h1 : toDouble (((48202589761706 : ℕ) : ℚ) * 100) = some 4820258976170600 := by
    rw [e1]; exact toDouble_hugeProduct
  have h2 : toDouble ((4820258976170600 : ℚ) / ((70368744177673 : ℕ) : ℚ)) = some (137 / 2) := by
    rw [e2]; exact toDouble_hugeQuotient
  have h3 : mathRound (137 / 2) = 69 := by
    unfold mathRound
    rw [Int.floor_eq_iff]
    norm_num
  rw [percentCompleted_of_toDouble _ _ _ _ e3 h1 h2, h3]

/-- The exact quotient at `loaded = 48202589761706`, `total = 70368744177673`
rounds to 68. -/
theorem nearestHalfUp_huge :
    nearestHalfUp (((48202589761706 * 100 : Nat) : ℚ) / ((70368744177673 : Nat) : ℚ)) = 68 := by
  rw [← mathRound_eq_nearestHalfUp]
  unfold mathRound
  rw [Int.floor_eq_iff]
  norm_num

/-- Progress callbacks during a transfer only write the `progress` cell. -/
theorem run_uploadProgress (evs : List ProgressEvent) (w : World) (h : 0 < w.inFlight) :
    run w (evs.map .uploadProgress)
      = { w with st := { w.st with progress := lastPublished w.st.progress evs } } := by
  induction evs generalizing w with
  | nil => rfl
  | cons ev evs ih =>
    have h0 : w.inFlight ≠ 0 := Nat.pos_iff_ne_zero.mp h
    have hs : step w (.uploadProgress ev) = onUploadProgress w ev := by
      simp [step, h0]
    have := ih (onUploadProgress w ev) h
    simp only [run, List.map_cons, List.foldl_cons, hs] at this ⊢
    rw [this]
    rfl

/-- Progress callbacks leave every cell but `progress`, and the environment,
as they were. -/
theorem foldl_onUploadProgress_keeps (evs : List ProgressEvent) (w : World) :
    (evs.foldl onUploadProgress w).st.file = w.st.file ∧
    (evs.foldl onUploadProgress w).st.loading = w.st.loading ∧
    (evs.foldl onUploadProgress w).st.downloadLink = w.st.downloadLink ∧
    (evs.foldl onUploadProgress w).st.fileUploaded = w.st.fileUploaded ∧
    (evs.foldl onUploadProgress w).st.darkMode = w.st.darkMode ∧
    (evs.foldl onUploadProgress w).st.error = w.st.error ∧
    (evs.foldl onUploadProgress w).posted = w.posted ∧
    (evs.foldl onUploadProgress w).inFlight = w.inFlight ∧
    (evs.foldl onUploadProgress w).blobs = w.blobs ∧
    (evs.foldl onUploadProgress w).live = w.live := by
  induction evs generalizing w with
  | nil => simp
  | cons ev evs ih =>
    simp only [List.foldl_cons]
    have h := ih (onUploadProgress w ev)
    simpa [onUploadProgress] using h

/-- Each published value depends on its own event only. -/
theorem publishedProgress_eq_map (evs : List ProgressEvent) (w : World) :
    publishedProgress w evs = evs.map percentCompleted := by
  induction evs generalizing w with
  | nil => rfl
  | cons ev evs ih =>
    simp only [publishedProgress, List.map_cons, ih]
    rfl

/-! ## C2: submit without a file -/

/-- C2: `handleFileUpload` called while the `file` cell is falsy (`null` or
`undefined`) returns the world it was given: every state cell is unchanged and
nothing is posted. -/
theorem handleFileUpload_no_file (w : World) (h : w.st.file.truthy = false) :
    handleFileUpload w = w ∧
    (handleFileUpload w).st.file = w.st.file ∧
    (handleFileUpload w).st.loading = w.st.loading ∧
    (handleFileUpload w).st.downloadLink = w.st.downloadLink ∧
    (handleFileUpload w).st.progress = w.st.progress ∧
    (handleFileUpload w).st.fileUploaded = w.st.fileUploaded ∧
    (handleFileUpload w).st.error = w.st.error ∧
    (handleFileUpload w).posted = w.posted ∧
    (handleFileUpload w).inFlight = w.inFlight := by
  have key : handleFileUpload w = w := by
    unfold handleFileUpload
    cases hf : w.st.file with
    | null => rfl
    | undefined => rfl
    | file f => rw [hf] at h; simp [FileSlot.truthy] at h
  simp [key]

/-- The initial world has no file; submitting there changes nothing. -/
theorem handleFileUpload_no_file_witness :
    World.initial.st.file.truthy = false ∧ handleFileUpload World.initial = World.initial :=
  ⟨by decide, (handleFileUpload_no_file World.initial (by decide)).1⟩

/-! ## C3: reset -/

/-- C3: `resetForm` sends every state to the initial values of the six session
cells (no file, not loading, no download link, progress 0, indicator false, no
error; only the theme is kept), so two states with the same theme reset to the
same state, and resetting twice equals resetting once. -/
theorem resetForm_initial_idempotent (s : State) :
    (resetForm s).file = .null ∧
    (resetForm s).loading = false ∧
    (resetForm s).progress = .int 0 ∧
    (resetForm s).error = none ∧
    (resetForm s).downloadLink = none ∧
    (resetForm s).fileUploaded = false ∧
    resetForm s = { State.initial with darkMode := s.darkMode } ∧
    resetForm (resetForm s) = resetForm s := by
  refine ⟨rfl, rfl, rfl, rfl, rfl, rfl, rfl, rfl⟩

/-! ## C7: accepting a file -/

/-- C7: `onDrop` with a non-empty list of accepted files keeps exactly the
first one as the pending file, clears the download link and the error, sets
progress to 0 and the uploaded indicator to true, whatever the state before;
`loading` and the theme are left as they were. -/
theorem onDrop_accepts_first (s : State) (f : File) (rest : List File) :
    (onDrop s (f :: rest)).file = .file f ∧
    (onDrop s (f :: rest)).downloadLink = none ∧
    (onDrop s (f :: rest)).error = none ∧
    (onDrop s (f :: rest)).progress = .int 0 ∧
    (onDrop s (f :: rest)).fileUploaded = true ∧
    (onDrop s (f :: rest)).loading = s.loading ∧
    (onDrop s (f :: rest)).darkMode = s.darkMode := by
  refine ⟨rfl, rfl, rfl, rfl, rfl, rfl, rfl⟩

/-! ## C1: submit during a transfer -/

/-- C1: submit while a transfer is in progress is a no-op. `handleFileUpload`
is bound to the Verify button alone, and the button is disabled by
`!file || loading`: for every world with a file present and `loading` true the
click leaves the world as it is, so every state cell is unchanged and no second
request is posted. -/
theorem clickVerify_while_loading (w : World) (f : File)
    (hf : w.st.file = .file f) (hl : w.st.loading = true) :
    clickVerify w = w ∧
    step w .verify = w ∧
    (step w .verify).st.file = .file f ∧
    (step w .verify).st = w.st ∧
    (step w .verify).posted = w.posted ∧
    (step w .verify).inFlight = w.inFlight := by
  have key : clickVerify w = w := by
    simp [clickVerify, verifyDisabled, hl]
  have key2 : step w .verify = w := key
  refine ⟨key, key2, ?_, ?_, ?_, ?_⟩
  · rw [key2, hf]
  · rw [key2]
  · rw [key2]
  · rw [key2]

/-- With one request in flight, a click on Verify changes nothing. -/
theorem clickVerify_while_loading_witness :
    worldUploading.st.file = .file sampleFile ∧
    worldUploading.st.loading = true ∧
    clickVerify worldUploading = worldUploading ∧
    (step worldUploading .verify).posted = [sampleFile] :=
  ⟨by decide, by decide,
   (clickVerify_while_loading worldUploading sampleFile (by decide) (by decide)).1,
   (clickVerify_while_loading worldUploading sampleFile (by decide) (by decide)).2.2.2.2.1⟩

/-! ## C4: a failing transfer -/

/-- C4, as stated, fails: after a first successful upload the download link
holds URL 0; a second submit of the same file that is rejected leaves the
error message set and `loading` false, but the download link still holds
URL 0. -/
theorem rejected_keeps_earlier_link :
    (run World.initial
      [.drop [sampleFile], .verify, .resolved sampleData]).st.file = .file sampleFile ∧
    (run World.initial
      [.drop [sampleFile], .verify, .resolved sampleData]).st.loading = false ∧
    (run World.initial
      [.drop [sampleFile], .verify, .resolved sampleData, .verify, .rejected]).st.error
        = some errorMessage ∧
    (run World.initial
      [.drop [sampleFile], .verify, .resolved sampleData, .verify, .rejected]).st.loading
        = false ∧
    (run World.initial
      [.drop [sampleFile], .verify, .resolved sampleData, .verify, .rejected]).st.downloadLink
        = some 0 ∧
    (uploadRejected (handleFileUpload (run World.initial
      [.drop [sampleFile], .verify, .resolved sampleData]))).st.downloadLink ≠ none := by
  decide

/-- C4, amended: for a transfer started by `handleFileUpload` from any state
with a file present, followed by any progress callbacks and then rejected, the
resulting state has exactly the fixed error message, `loading` false, and no
result handle is created: the download link is the one held before the submit
(null when it was null), and no object URL is made. -/
theorem rejected_transfer_outcome (w : World) (f : File) (evs : List ProgressEvent)
    (hf : w.st.file = .file f) :
    (uploadRejected (evs.foldl onUploadProgress (handleFileUpload w))).st.error
      = some "An error occurred while verifying IPs. Please try again." ∧
    (uploadRejected (evs.foldl onUploadProgress (handleFileUpload w))).st.loading = false ∧
    (uploadRejected (evs.foldl onUploadProgress (handleFileUpload w))).st.downloadLink
      = w.st.downloadLink ∧
    (w.st.downloadLink = none →
      (uploadRejected (evs.foldl onUploadProgress (handleFileUpload w))).st.downloadLink
        = none) ∧
    (uploadRejected (evs.foldl onUploadProgress (handleFileUpload w))).blobs = w.blobs ∧
    (uploadRejected (evs.foldl onUploadProgress (handleFileUpload w))).live = w.live := by
  obtain ⟨-, -, hd, -, -, -, -, -, hb, hv⟩ :=
    foldl_onUploadProgress_keeps evs (handleFileUpload w)
  have hstart : (handleFileUpload w).st.downloadLink = w.st.downloadLink ∧
      (handleFileUpload w).blobs = w.blobs ∧ (handleFileUpload w).live = w.live := by
    simp [handleFileUpload, hf]
  have hlink : (uploadRejected (evs.foldl onUploadProgress (handleFileUpload w))).st.downloadLink
      = w.st.downloadLink := by
    show (evs.foldl onUploadProgress (handleFileUpload w)).st.downloadLink = _
    rw [hd, hstart.1]
  refine ⟨rfl, rfl, hlink, fun h => by rw [hlink, h], ?_, ?_⟩
  · show (evs.foldl onUploadProgress (handleFileUpload w)).blobs = _
    rw [hb, hstart.2.1]
  · show (evs.foldl onUploadProgress (handleFileUpload w)).live = _
    rw [hv, hstart.2.2]

/-- A first upload of `sampleFile` that is rejected: the message is set and
there is no download link. -/
theorem rejected_transfer_outcome_witness :
    (run World.initial [.drop [sampleFile]]).st.file = .file sampleFile ∧
    (uploadRejected (List.foldl onUploadProgress
      (handleFileUpload (run World.initial [.drop [sampleFile]])) [])).st.error
      = some "An error occurred while verifying IPs. Please try again." ∧
    (uploadRejected (List.foldl onUploadProgress
      (handleFileUpload (run World.initial [.drop [sampleFile]])) [])).st.downloadLink
      = none :=
  ⟨by decide,
   (rejected_transfer_outcome (run World.initial [.drop [sampleFile]]) sampleFile []
     (by decide)).1,
   (rejected_transfer_outcome (run World.initial [.drop [sampleFile]]) sampleFile []
     (by decide)).2.2.2.1 (by decide)⟩

/-! ## C6: the start of a transfer -/

/-- C6, evaluated where it fails: after a rejected upload the error message is
set; the next click on Verify (file present, not loading) sets `loading` and
resets progress to 0 but leaves the earlier error message in place, and the
message is still there after that retry succeeds. -/
theorem retry_keeps_error :
    (run World.initial [.drop [sampleFile], .verify, .rejected]).st.file
      = .file sampleFile ∧
    (run World.initial [.drop [sampleFile], .verify, .rejected]).st.loading = false ∧
    (run World.initial [.drop [sampleFile], .verify, .rejected]).st.error
      = some errorMessage ∧
    (handleFileUpload
      (run World.initial [.drop [sampleFile], .verify, .rejected])).st.loading = true ∧
    (handleFileUpload
      (run World.initial [.drop [sampleFile], .verify, .rejected])).st.progress = .int 0 ∧
    (handleFileUpload
      (run World.initial [.drop [sampleFile], .verify, .rejected])).st.error
        = some errorMessage ∧
    (run World.initial
      [.drop [sampleFile], .verify, .rejected, .verify, .resolved sampleData]).st.error
        = some errorMessage ∧
    (run World.initial
      [.drop [sampleFile], .verify, .rejected, .verify, .resolved sampleData]).st.downloadLink
        = some 0 := by
  decide

/-! ## C5: progress of a successful transfer -/

/-- C5, as stated, fails: line 46 divides doubles. With the 64 TiB file
selected, a progress callback with `loaded = 48202589761706` and `total =
70368744177673` (so `0 < total` and `loaded ≤ total`) publishes 69, while the
nearest integer to the exact `loaded * 100 / total` is 68: the exact quotient
lies within `2 ^ -47` below 68.5 and the double quotient is 68.5. -/
theorem progress_rounded_in_doubles :
    (run World.initial [.drop [hugeFile]]).st.file = .file hugeFile ∧
    0 < 70368744177673 ∧
    48202589761706 ≤ 70368744177673 ∧
    publishedProgress (handleFileUpload (run World.initial [.drop [hugeFile]]))
        [⟨48202589761706, 70368744177673⟩]
      = [.int 69] ∧
    nearestHalfUp (((48202589761706 * 100 : Nat) : ℚ) / ((70368744177673 : Nat) : ℚ)) = 68 ∧
    publishedProgress (handleFileUpload (run World.initial [.drop [hugeFile]]))
        [⟨48202589761706, 70368744177673⟩]
      ≠ [48202589761706].map (fun l =>
          JsNum.int (nearestHalfUp (((l * 100 : Nat) : ℚ) / ((70368744177673 : Nat) : ℚ)))) := by
  have hpub : publishedProgress (handleFileUpload (run World.initial [.drop [hugeFile]]))
      [⟨48202589761706, 70368744177673⟩] = [.int 69] := by
    rw [publishedProgress_eq_map, List.map_cons, List.map_nil, percentCompleted_huge]
  refine ⟨by decide, by norm_num, by norm_num, hpub, nearestHalfUp_huge, ?_⟩
  rw [hpub, List.map_cons, List.map_nil, nearestHalfUp_huge]
  intro h
  simp at h

/-- C5, amended: for a transfer started by `handleFileUpload` with a file
present, whose progress callbacks report `loaded` values `l1..ln` (each at most
`total`) against a `total` with `0 < total < 2 ^ 46`, the published progress
values are, in order, the nearest integers to `li * 100 / total` with halves
rounded up; when the request then resolves, `loading` is false and the
download link is a newly created object URL backed by the response payload.
For `loaded = 2500, 5000, 7500, 10000` and `total = 10000` the published
values are 25, 50, 75, 100. -/
theorem successful_transfer_progress (w : World) (f : File) (data : Payload)
    (hf : w.st.file = .file f) :
    (∀ (total : Nat) (loads : List Nat), 0 < total → total < 2 ^ 46 →
      (∀ l ∈ loads, l ≤ total) →
      publishedProgress (handleFileUpload w) (loads.map fun l => ⟨l, total⟩)
        = loads.map (fun l => JsNum.int (nearestHalfUp (((l * 100 : Nat) : ℚ) / (total : ℚ)))) ∧
      (uploadResolved ((loads.map fun l => ⟨l, total⟩).foldl onUploadProgress
        (handleFileUpload w)) data).st.loading = false ∧
      (uploadResolved ((loads.map fun l => ⟨l, total⟩).foldl onUploadProgress
        (handleFileUpload w)) data).st.downloadLink = some w.blobs.length ∧
      (uploadResolved ((loads.map fun l => ⟨l, total⟩).foldl onUploadProgress
        (handleFileUpload w)) data).blobs[w.blobs.length]? = some data ∧
      w.blobs.length ∈ (uploadResolved ((loads.map fun l => ⟨l, total⟩).foldl onUploadProgress
        (handleFileUpload w)) data).live) ∧
    publishedProgress (handleFileUpload w)
        [⟨2500, 10000⟩, ⟨5000, 10000⟩, ⟨7500, 10000⟩, ⟨10000, 10000⟩]
      = [.int 25, .int 50, .int 75, .int 100] := by
  have hstart : (handleFileUpload w).blobs = w.blobs := by
    simp [handleFileUpload, hf]
  constructor
  · intro total loads ht hb hl
    obtain ⟨-, -, -, -, -, -, -, -, hbl, -⟩ :=
      foldl_onUploadProgress_keeps (loads.map fun l => (⟨l, total⟩ : ProgressEvent))
        (handleFileUpload w)
    rw [hstart] at hbl
    refine ⟨?_, rfl, ?_, ?_, ?_⟩
    · rw [publishedProgress_eq_map, List.map_map]
      apply List.map_congr_left
      intro l hmem
      exact percentCompleted_exact l total ht hb (hl l hmem)
    · simp [uploadResolved, createObjectURL, hbl]
    · simp [uploadResolved, createObjectURL, hbl]
    · simp [uploadResolved, createObjectURL, hbl]
  · have h1 := percentCompleted_exact 2500 10000 (by norm_num) (by norm_num) (by norm_num)
    have h2 := percentCompleted_exact 5000 10000 (by norm_num) (by norm_num) (by norm_num)
    have h3 := percentCompleted_exact 7500 10000 (by norm_num) (by norm_num) (by norm_num)
    have h4 := percentCompleted_exact 10000 10000 (by norm_num) (by norm_num) (by norm_num)
    rw [publishedProgress_eq_map]
    simp only [List.map_cons, List.map_nil, h1, h2, h3, h4]
    norm_num [nearestHalfUp]

/-- The 10,000-byte upload of `sampleFile` reported in quarters: the published
values are the half-up roundings and equal 25, 50, 75, 100, and the resolved
request leaves URL 0 in the download link. -/
theorem successful_transfer_progress_witness :
    (run World.initial [.drop [sampleFile]]).st.file = .file sampleFile ∧
    (0 < 10000 ∧ 10000 < 2 ^ 46 ∧ ∀ l ∈ [2500, 5000, 7500, 10000], l ≤ 10000) ∧
    publishedProgress (handleFileUpload (run World.initial [.drop [sampleFile]]))
        ([2500, 5000, 7500, 10000].map fun l => ⟨l, 10000⟩)
      = [2500, 5000, 7500, 10000].map
          (fun l => JsNum.int (nearestHalfUp (((l * 100 : Nat) : ℚ) / ((10000 : Nat) : ℚ)))) ∧
    (uploadResolved (([2500, 5000, 7500, 10000].map fun l => ⟨l, 10000⟩).foldl onUploadProgress
        (handleFileUpload (run World.initial [.drop [sampleFile]]))) sampleData).st.downloadLink
      = some 0 ∧
    publishedProgress (handleFileUpload (run World.initial [.drop [sampleFile]]))
        [⟨2500, 10000⟩, ⟨5000, 10000⟩, ⟨7500, 10000⟩, ⟨10000, 10000⟩]
      = [.int 25, .int 50, .int 75, .int 100] :=
  ⟨by decide, ⟨by decide, by decide, by decide⟩,
   ((successful_transfer_progress (run World.initial [.drop [sampleFile]]) sampleFile
     sampleData (by decide)).1 10000 [2500, 5000, 7500, 10000]
     (by decide) (by decide) (by decide)).1,
   ((successful_transfer_progress (run World.initial [.drop [sampleFile]]) sampleFile
     sampleData (by decide)).1 10000 [2500, 5000, 7500, 10000]
     (by decide) (by decide) (by decide)).2.2.1,
   (successful_transfer_progress (run World.initial [.drop [sampleFile]]) sampleFile
     sampleData (by decide)).2⟩

/-! ## C8: completion after a reset -/

/-- C8, as stated, fails: a reset while the request is in flight gives the
initial state, but when the request then resolves the download link is set to
the new URL 0, when it is rejected instead the error message is set, and a
progress callback of the request sets `progress` to 100. -/
theorem stale_completion_not_discarded :
    (run World.initial [.drop [sampleFile], .verify, .reset]).st = State.initial ∧
    (run World.initial [.drop [sampleFile], .verify, .reset]).inFlight = 1 ∧
    (run World.initial
      [.drop [sampleFile], .verify, .reset, .resolved sampleData]).st.downloadLink = some 0 ∧
    (run World.initial
      [.drop [sampleFile], .verify, .reset, .resolved sampleData]).st ≠ State.initial ∧
    (run World.initial
      [.drop [sampleFile], .verify, .reset, .rejected]).st.error = some errorMessage ∧
    (run World.initial
      [.drop [sampleFile], .verify, .reset, .rejected]).st ≠ State.initial ∧
    (run World.initial
      [.drop [sampleFile], .verify, .reset, .uploadProgress ⟨10000, 10000⟩]).st.progress
        = .int 100 := by
  refine ⟨by decide, by decide, by decide, by decide, by decide, by decide, ?_⟩
  have hfull : percentCompleted ⟨10000, 10000⟩ = .int 100 := by
    rw [percentCompleted_exact 10000 10000 (by norm_num) (by norm_num) (by norm_num)]
    norm_num [nearestHalfUp]
  have hflight : (run World.initial [.drop [sampleFile], .verify, .reset]).inFlight ≠ 0 := by
    decide
  show (step (run World.initial [.drop [sampleFile], .verify, .reset])
    (.uploadProgress ⟨10000, 10000⟩)).st.progress = .int 100
  simp only [step, if_neg hflight, onUploadProgress, hfull]

/-- C8, amended: after a reset performed while a transfer is in flight, the
later callbacks of that transfer are applied to the reset state, not
discarded. Each progress callback sets `progress` to its percentage; the
completion then sets the download link to a newly created object URL on
success, or the fixed error message on failure, with `loading` false. The
cells these callbacks do not write stay as the reset left them: no file,
indicator false, no error on success, no download link on failure. -/
theorem stale_completion_applied (w : World) (data : Payload) (evs : List ProgressEvent)
    (h : 0 < w.inFlight) :
    (run (step w .reset) (evs.map .uploadProgress)).st
      = { resetForm w.st with progress := lastPublished (.int 0) evs } ∧
    (run (step w .reset) (evs.map .uploadProgress ++ [.resolved data])).st
      = { resetForm w.st with
          progress := lastPublished (.int 0) evs
          downloadLink := some w.blobs.length } ∧
    (run (step w .reset) (evs.map .uploadProgress ++ [.rejected])).st
      = { resetForm w.st with
          progress := lastPublished (.int 0) evs
          error := some errorMessage } := by
  have h0 : w.inFlight ≠ 0 := Nat.pos_iff_ne_zero.mp h
  have hr : 0 < (step w .reset).inFlight := h
  have hrun := run_uploadProgress evs (step w .reset) hr
  have happ : ∀ e, run (step w .reset) (evs.map .uploadProgress ++ [e])
      = step (run (step w .reset) (evs.map .uploadProgress)) e := by
    intro e
    simp [run, List.foldl_append]
  refine ⟨?_, ?_, ?_⟩
  · rw [hrun]
    rfl
  · rw [happ, hrun]
    simp [step, h0, uploadResolved, createObjectURL, resetForm]
  · rw [happ, hrun]
    simp [step, h0, uploadRejected, resetForm]

/-- Reset during the upload of `sampleFile`, then a last progress callback and
the completion of the request. -/
theorem stale_completion_applied_witness :
    0 < worldUploading.inFlight ∧
    (run (step worldUploading .reset)
        ([(⟨10000, 10000⟩ : ProgressEvent)].map .uploadProgress ++ [.resolved sampleData])).st
      = { resetForm worldUploading.st with
          progress := lastPublished (.int 0) [⟨10000, 10000⟩]
          downloadLink := some worldUploading.blobs.length } ∧
    (run (step worldUploading .reset)
        ([(⟨10000, 10000⟩ : ProgressEvent)].map .uploadProgress ++ [.rejected])).st
      = { resetForm worldUploading.st with
          progress := lastPublished (.int 0) [⟨10000, 10000⟩]
          error := some errorMessage } :=
  ⟨by decide,
   (stale_completion_applied worldUploading sampleData [⟨10000, 10000⟩] (by decide)).2.1,
   (stale_completion_applied worldUploading sampleData [⟨10000, 10000⟩] (by decide)).2.2⟩

/-! ## C10: a drop with nothing accepted -/

/-- C10, evaluated where it fails: with a file selected and its result ready
for download, `onDrop` called with an empty accepted list replaces the file by
`undefined`, clears the download link and leaves the uploaded indicator true;
from the initial state it turns the uploaded indicator on. -/
theorem onDrop_empty_changes_state :
    (run World.initial
      [.drop [sampleFile], .verify, .resolved sampleData]).st.file = .file sampleFile ∧
    (run World.initial
      [.drop [sampleFile], .verify, .resolved sampleData]).st.downloadLink = some 0 ∧
    (onDrop (run World.initial
      [.drop [sampleFile], .verify, .resolved sampleData]).st []).file = .undefined ∧
    (onDrop (run World.initial
      [.drop [sampleFile], .verify, .resolved sampleData]).st []).downloadLink = none ∧
    (onDrop (run World.initial
      [.drop [sampleFile], .verify, .resolved sampleData]).st []).fileUploaded = true ∧
    (onDrop State.initial []).fileUploaded = true ∧
    onDrop State.initial [] ≠ State.initial := by
  decide

/-! ## C9: object URLs -/

/-- Nothing has been created at mount. -/
theorem allCreatedLive_initial : AllCreatedLive World.initial := by
  constructor
  · rfl
  · intro u hu
    simp [World.initial, State.initial] at hu

/-- Starting a transfer creates no object URL and keeps the download link. -/
theorem handleFileUpload_handles (w : World) :
    (handleFileUpload w).live = w.live ∧ (handleFileUpload w).blobs = w.blobs ∧
    (handleFileUpload w).st.downloadLink = w.st.downloadLink := by
  unfold handleFileUpload
  cases w.st.file <;> exact ⟨rfl, rfl, rfl⟩

/-- A click on Verify creates no object URL and keeps the download link. -/
theorem clickVerify_handles (w : World) :
    (clickVerify w).live = w.live ∧ (clickVerify w).blobs = w.blobs ∧
    (clickVerify w).st.downloadLink = w.st.downloadLink := by
  unfold clickVerify
  split_ifs
  · exact ⟨rfl, rfl, rfl⟩
  · exact handleFileUpload_handles w

/-- No event removes an object URL from the live list. -/
theorem step_live_grows (w : World) (e : Event) : ∃ l, (step w e).live = w.live ++ l := by
  cases e with
  | drop fs => exact ⟨[], by simp [step]⟩
  | verify => exact ⟨[], by simp [step, (clickVerify_handles w).1]⟩
  | uploadProgress ev =>
    refine ⟨[], ?_⟩
    simp only [step]
    split_ifs <;> simp [onUploadProgress]
  | resolved data =>
    by_cases h : w.inFlight = 0
    · exact ⟨[], by simp [step, h]⟩
    · exact ⟨[w.blobs.length], by simp [step, h, uploadResolved, createObjectURL]⟩
  | rejected =>
    refine ⟨[], ?_⟩
    simp only [step]
    split_ifs <;> simp [uploadRejected]
  | reset => exact ⟨[], by simp [step]⟩
  | toggleTheme => exact ⟨[], by simp [step]⟩

/-- Every event preserves `AllCreatedLive`. -/
theorem step_allCreatedLive (w : World) (e : Event) (h : AllCreatedLive w) :
    AllCreatedLive (step w e) := by
  obtain ⟨hl, hd⟩ := h
  cases e with
  | drop fs =>
    refine ⟨hl, ?_⟩
    intro u hu
    simp [step, onDrop] at hu
  | verify =>
    obtain ⟨h1, h2, h3⟩ := clickVerify_handles w
    refine ⟨?_, ?_⟩
    · show (clickVerify w).live = List.range (clickVerify w).blobs.length
      rw [h1, h2, hl]
    · intro u hu
      have hu2 : (clickVerify w).st.downloadLink = some u := hu
      rw [h3] at hu2
      show u < (clickVerify w).blobs.length
      rw [h2]
      exact hd u hu2
  | uploadProgress ev =>
    by_cases h : w.inFlight = 0
    · simpa [step, h, AllCreatedLive] using And.intro hl hd
    · simpa [step, h, AllCreatedLive, onUploadProgress] using And.intro hl hd
  | resolved data =>
    by_cases h : w.inFlight = 0
    · simpa [step, h, AllCreatedLive] using And.intro hl hd
    · refine ⟨?_, ?_⟩
      · simp [step, h, uploadResolved, createObjectURL, hl, List.range_succ]
      · intro u hu
        simp [step, h, uploadResolved, createObjectURL] at hu ⊢
        subst hu
        exact Nat.lt_succ_self _
  | rejected =>
    by_cases h : w.inFlight = 0
    · simpa [step, h, AllCreatedLive] using And.intro hl hd
    · simpa [step, h, AllCreatedLive, uploadRejected] using And.intro hl hd
  | reset =>
    refine ⟨hl, ?_⟩
    intro u hu
    simp [step, resetForm] at hu
  | toggleTheme => exact ⟨hl, hd⟩

/-- Every run preserves `AllCreatedLive`. -/
theorem run_allCreatedLive (evs : List Event) (w : World) (h : AllCreatedLive w) :
    AllCreatedLive (run w evs) := by
  induction evs generalizing w with
  | nil => exact h
  | cons e evs ih => exact ih (step w e) (step_allCreatedLive w e h)

/-- C9, as stated, fails: nothing revokes an object URL. After a successful
upload and a reset the download link is null while URL 0 is still live; after
a successful upload and the drop of another file likewise; after two
successful uploads two URLs are live and only the second is in the download
link. -/
theorem replaced_handles_stay_live :
    (run World.initial
      [.drop [sampleFile], .verify, .resolved sampleData, .reset]).st.downloadLink = none ∧
    (run World.initial
      [.drop [sampleFile], .verify, .resolved sampleData, .reset]).live = [0] ∧
    (run World.initial
      [.drop [sampleFile], .verify, .resolved sampleData,
       .drop [sampleFile]]).st.downloadLink = none ∧
    (run World.initial
      [.drop [sampleFile], .verify, .resolved sampleData, .drop [sampleFile]]).live = [0] ∧
    (run World.initial
      [.drop [sampleFile], .verify, .resolved sampleData, .verify,
       .resolved sampleData]).st.downloadLink = some 1 ∧
    (run World.initial
      [.drop [sampleFile], .verify, .resolved sampleData, .verify,
       .resolved sampleData]).live = [0, 1] := by
  decide

/-- C9, amended: the code only overwrites the download link and never revokes
an object URL. In every reachable state all object URLs created so far are
live, the handle stored in the download link (if any) is one of the live
handles, and no event removes a handle from the live list. -/
theorem handles_never_revoked (w : World) (h : Reachable w) :
    w.live = List.range w.blobs.length ∧
    (∀ u, w.st.downloadLink = some u → u ∈ w.live) ∧
    ∀ e, ∃ l, (step w e).live = w.live ++ l := by
  obtain ⟨evs, rfl⟩ := h
  obtain ⟨hl, hd⟩ := run_allCreatedLive evs World.initial allCreatedLive_initial
  refine ⟨hl, ?_, fun e => step_live_grows _ e⟩
  intro u hu
  rw [hl, List.mem_range]
  exact hd u hu

/-- After a successful upload and a reset, the one URL created is still live. -/
theorem handles_never_revoked_witness :
    Reachable (run World.initial [.drop [sampleFile], .verify, .resolved sampleData, .reset]) ∧
    (run World.initial [.drop [sampleFile], .verify, .resolved sampleData, .reset]).live
      = List.range
        (run World.initial
          [.drop [sampleFile], .verify, .resolved sampleData, .reset]).blobs.length :=
  ⟨⟨_, rfl⟩,
   (handles_never_revoked
     (run World.initial [.drop [sampleFile], .verify, .resolved sampleData, .reset])
     ⟨_, rfl⟩).1⟩

end IPChecker
